import Mathlib

/-!
Shallow embedding of the deployment/staging pipeline of the satellite
wallpaper repository (src/config/config_loader.py together with
src/scripts/deploy/deploy-wallpaper.py).  Strings are Lean strings
(lists of unicode scalar values), file contents are abstracted to
natural numbers standing for byte blobs, and the numeric option values
(fps, hold seconds) are exact rationals.  Directories are modelled as
association data: a batch directory is its list of (filename, content)
pairs, and the staging / materials directories are finite maps from
filename to content.
-/

namespace SatWall

/-! ### Canonical Key Builder (config_loader.canonicalize / build_view_key) -/

/-- Character class of CPython's unicode-aware regex class `\w`
(the pattern `[^\w\-_]` strips everything outside it save the hyphen).
It is exact on ASCII and on the Latin-1 supplement / Latin Extended /
basic Greek letter ranges that this repository's view names draw from;
code points outside those ranges are not modelled. -/
def pyIsWordChar (c : Char) : Bool :=
  (48 ≤ c.toNat && c.toNat ≤ 57) || (65 ≤ c.toNat && c.toNat ≤ 90) ||
  (97 ≤ c.toNat && c.toNat ≤ 122) || c.toNat == 95 ||
  c.toNat == 0xAA || c.toNat == 0xB5 || c.toNat == 0xBA ||
  (0xC0 ≤ c.toNat && c.toNat ≤ 0x24F && c.toNat != 0xD7 && c.toNat != 0xF7) ||
  (0x391 ≤ c.toNat && c.toNat ≤ 0x3A1) || (0x3A3 ≤ c.toNat && c.toNat ≤ 0x3C9)

/-- A character survives the final `re.sub` of `canonicalize`. -/
def keepChar (c : Char) : Bool := pyIsWordChar c || c == '-' || c == '_'

/-- The micro-sign substitution `text.replace("µ", "m")` (single
character to single character, hence a character map). -/
def mapMicro (c : Char) : Char := if c.toNat == 0xB5 then 'm' else c

/-- The Greek-mu substitution `text.replace("μ", "m")`. -/
def mapMu (c : Char) : Char := if c.toNat == 0x3BC then 'm' else c

/-- The space substitution `text.replace(" ", "_")`. -/
def mapSpace (c : Char) : Char := if c.toNat == 32 then '_' else c

/-- Character-level body of `canonicalize`. -/
def canonCore (l : List Char) : List Char :=
  (((l.map mapMicro).map mapMu).map mapSpace).filter keepChar

/-- `config_loader.canonicalize`. -/
def canonicalize (s : String) : String := String.mk (canonCore s.data)

/-- The ASCII character class `[A-Za-z0-9_-]` that the spec asserts for
the output of `canonicalize`. -/
def isAsciiKeyChar (c : Char) : Bool :=
  (48 ≤ c.toNat && c.toNat ≤ 57) || (65 ≤ c.toNat && c.toNat ≤ 90) ||
  (97 ≤ c.toNat && c.toNat ≤ 122) || c.toNat == 95 || c.toNat == 45

/-- A view record; `build_view_key` only reads the keys `sat`, `sec`,
`im` of the view dict. -/
structure View where
  sat : String
  sec : String
  im : String
deriving DecidableEq

/-- `config_loader.build_view_key`. -/
def build_view_key (v : View) : String :=
  canonicalize (v.sat ++ "_" ++ v.sec ++ "_" ++ v.im)

/-! ### Config Resolver (deploy-wallpaper.effective_opts) -/

/-- The resolved per-view runtime options (the keys of the built-in
`defaults` dict of `load_runtime_cfg`). -/
structure Opts where
  fps : ℚ
  hold_last_sec : ℚ
  clean_materials : Bool
  stage_only : Bool
  hold_mode : String
deriving DecidableEq

/-- A per-view override block from `runtime_config.json`: any subset of
the option keys (per-view keys shadow defaults field by field via
`dict.update`). -/
structure PartialOpts where
  fps : Option ℚ
  hold_last_sec : Option ℚ
  clean_materials : Option Bool
  stage_only : Option Bool
  hold_mode : Option String
deriving DecidableEq

/-- `d.update(runtime_cfg["views"][view_key])`. -/
def overlay (d : Opts) (p : PartialOpts) : Opts :=
  { fps := p.fps.getD d.fps
    hold_last_sec := p.hold_last_sec.getD d.hold_last_sec
    clean_materials := p.clean_materials.getD d.clean_materials
    stage_only := p.stage_only.getD d.stage_only
    hold_mode := p.hold_mode.getD d.hold_mode }

/-- The four environment override strings read at module load; an unset
variable is the empty string (`os.environ.get(..., "")`), and the code
only acts on a non-empty value. -/
structure Env where
  CLEAN_MATERIALS : String
  STAGE_ONLY : String
  HOLD_LAST_FRAMES : String
  HOLD_MODE : String
deriving DecidableEq

/-- One decimal digit of a Python int literal. -/
def decDigitVal? (c : Char) : Option Nat :=
  if 48 ≤ c.toNat ∧ c.toNat ≤ 57 then some (c.toNat - 48) else none

/-- Value of a non-empty all-digit character run (`none` on any
non-digit; the empty run yields `some 0` and is rejected by callers). -/
def decNat? (l : List Char) : Option Nat :=
  l.foldl
    (fun acc c =>
      match acc, decDigitVal? c with
      | some a, some d => some (10 * a + d)
      | _, _ => none)
    (some 0)

/-- Models Python `int(s)` on plain decimal literals with an optional
sign.  (The source only feeds it the `HOLD_LAST_FRAMES` environment
string; the surrounding whitespace and underscore digit separators that
Python also accepts are not modelled.) -/
def pyInt? (s : String) : Option Int :=
  match s.data with
  | [] => none
  | '-' :: rest =>
    if rest.isEmpty then none else (decNat? rest).map (fun n => -(n : Int))
  | '+' :: rest =>
    if rest.isEmpty then none else (decNat? rest).map (fun n => (n : Int))
  | l => (decNat? l).map (fun n => (n : Int))

/-- `if ENV_CLEAN: d["clean_materials"] = ENV_CLEAN == "1"`. -/
def applyCleanEnv (d : Opts) (env : Env) : Opts :=
  if env.CLEAN_MATERIALS ≠ "" then
    { d with clean_materials := env.CLEAN_MATERIALS == "1" }
  else d

/-- `if ENV_STAGE_ONLY: d["stage_only"] = ENV_STAGE_ONLY == "1"`. -/
def applyStageOnlyEnv (d : Opts) (env : Env) : Opts :=
  if env.STAGE_ONLY ≠ "" then
    { d with stage_only := env.STAGE_ONLY == "1" }
  else d

/-- The `HOLD_LAST_FRAMES` override: `int(ENV_HOLD_LAST)` then
`frames / float(d["fps"])`, both inside one `try`.  A parse failure or a
zero fps (Python raises `ZeroDivisionError` on float division by zero)
lands in the bare `except`, keeping `d` unchanged. -/
def applyHoldLastEnv (d : Opts) (env : Env) : Opts :=
  if env.HOLD_LAST_FRAMES ≠ "" then
    match pyInt? env.HOLD_LAST_FRAMES with
    | some frames =>
      if d.fps = 0 then d else { d with hold_last_sec := (frames : ℚ) / d.fps }
    | none => d
  else d

/-- `if ENV_HOLD_MODE: d["hold_mode"] = ENV_HOLD_MODE`. -/
def applyHoldModeEnv (d : Opts) (env : Env) : Opts :=
  if env.HOLD_MODE ≠ "" then { d with hold_mode := env.HOLD_MODE } else d

/-- The environment-override tail of `effective_opts`, applied in
source order. -/
def applyEnv (d : Opts) (env : Env) : Opts :=
  applyHoldModeEnv (applyHoldLastEnv (applyStageOnlyEnv (applyCleanEnv d env) env) env) env

/-- The runtime configuration after `load_runtime_cfg`: built-in
defaults possibly updated from `runtime_config.json`, plus the per-view
override map. -/
structure RuntimeCfg where
  defaults : Opts
  views : List (String × PartialOpts)

/-- `deploy-wallpaper.effective_opts` (the module-level env strings are
passed explicitly). -/
def effective_opts (view_key : String) (cfg : RuntimeCfg) (env : Env) : Opts :=
  let d :=
    match cfg.views.find? (fun kv => kv.1 == view_key) with
    | some kv => overlay cfg.defaults kv.2
    | none => cfg.defaults
  applyEnv d env

/-! ### Frame names and globs -/

/-- Fuel-driven digit extraction (structural recursion so that the
kernel can evaluate frame names; `n < fuel` always holds at call
sites). -/
def decDigitsAux : Nat → Nat → List Char
  | 0, _ => []
  | fuel + 1, n =>
    if n < 10 then [Nat.digitChar n]
    else decDigitsAux fuel (n / 10) ++ [Nat.digitChar (n % 10)]

/-- Decimal digit characters of a natural number, most significant
first (the digits a Python `{:d}` format prints). -/
def decDigits (n : Nat) : List Char := decDigitsAux (n + 1) n

/-- Decimal value of a digit run (inverse of `decDigits`). -/
def decVal (l : List Char) : Nat :=
  l.foldl (fun a c => 10 * a + (c.toNat - 48)) 0

/-- The Python format `{i:03d}`: zero-pad to width three. -/
def pad3 (n : Nat) : List Char :=
  List.replicate (3 - (decDigits n).length) '0' ++ decDigits n

/-- The staged frame filename `f"frame_{i:03d}.png"`. -/
def frameName (i : Nat) : String :=
  String.mk ("frame_".data ++ pad3 i ++ ".png".data)

/-- The glob `frame_*.png` used to clear and to enumerate staged
frames: literal prefix, literal suffix, and `*` matching any (possibly
empty) run of characters. -/
def isFrameName (s : String) : Bool :=
  "frame_".data.isPrefixOf s.data && ".png".data.isSuffixOf s.data &&
    10 ≤ s.data.length

/-- The glob `*.png` over a batch folder.  (Python's glob does not
match names that start with a dot.) -/
def isPngName (s : String) : Bool :=
  ".png".data.isSuffixOf s.data && s.data.head? != some '.'

/-! ### File-system model and Frame Stager (stage_from_latest_run) -/

/-- One immediate subdirectory of a view's source folder: a downloaded
batch (or the reserved `staging` folder), with its filesystem
modification time and its files. -/
structure RunDir where
  name : String
  mtime : Nat
  files : List (String × Nat)
deriving DecidableEq

/-- A directory whose contents the pipeline mutates, as a map from
filename to content. -/
abbrev FsDir := String → Option Nat

/-- The empty directory. -/
def emptyDir : FsDir := fun _ => none

/-- Create or overwrite one file. -/
def writeFile (d : FsDir) (nm : String) (c : Nat) : FsDir :=
  fun n => if n = nm then some c else d n

/-- Step 3 of staging: delete every `frame_*.png` currently staged. -/
def eraseFrames (d : FsDir) : FsDir :=
  fun n => if isFrameName n then none else d n

/-- Content lookup in a batch folder (filesystem names are unique). -/
def lookupFile (files : List (String × Nat)) (nm : String) : Option Nat :=
  (files.find? (fun f => f.1 == nm)).map (fun f => f.2)

/-- `max(all_runs, key=lambda d: d.stat().st_mtime)`: Python's `max`
keeps the current maximum unless the next key is strictly greater, so
the first element attaining the maximum wins. -/
def pyMaxMtime (l : List RunDir) : Option RunDir :=
  match l with
  | [] => none
  | x :: xs => some (xs.foldl (fun c d => if c.mtime < d.mtime then d else c) x)

/-- The largest mtime occurring in a list of run folders (0 if none). -/
def maxMtimeVal (l : List RunDir) : Nat :=
  l.foldl (fun m d => max m d.mtime) 0

/-- Code-point comparison of two character lists, Python's `<=` on
strings. -/
def chLe : List Char → List Char → Bool
  | [], _ => true
  | _ :: _, [] => false
  | a :: as, b :: bs =>
    if a.toNat < b.toNat then true
    else if b.toNat < a.toNat then false
    else chLe as bs

/-- Python's lexicographic string order used by `sorted`. -/
def strLe (s t : String) : Bool := chLe s.data t.data

/-- Insertion into a name-sorted file list. -/
def insertByName (f : String × Nat) : List (String × Nat) → List (String × Nat)
  | [] => [f]
  | g :: gs => if strLe f.1 g.1 then f :: g :: gs else g :: insertByName f gs

/-- `sorted(...)` by filename (batch filenames are pairwise distinct,
so any correct sort agrees with Python's). -/
def sortByName : List (String × Nat) → List (String × Nat)
  | [] => []
  | f :: fs => insertByName f (sortByName fs)

/-- `sorted(latest_run_folder.glob("*.png"))`. -/
def sourcePngs (files : List (String × Nat)) : List (String × Nat) :=
  sortByName (files.filter (fun f => isPngName f.1))

/-- Python's `round` on a float: round half to even. -/
def pyRound (q : ℚ) : Int :=
  let f := ⌊q⌋
  let r := q - (f : ℚ)
  if r < 1 / 2 then f
  else if 1 / 2 < r then f + 1
  else if f % 2 = 0 then f else f + 1

/-- `max(0, int(round(hold_last_sec * max(0.1, float(fps)))))`. -/
def holdCount (hold_last_sec fps : ℚ) : Nat :=
  (max 0 (pyRound (hold_last_sec * max (1 / 10 : ℚ) fps))).toNat

/-- `copy_or_link`: whether by hard link or by the copy fallback, the
destination file ends up holding the source's bytes, which is all the
byte-blob model tracks (`try_hardlink` failing merely switches to
`shutil.copy2`). -/
def copy_or_link (st : FsDir) (srcContent : Nat) (dstName : String) : FsDir :=
  writeFile st dstName srcContent

/-- The enumerate-and-place loop: file at position `i` goes to
`frame_{i:03d}.png`. -/
def writeSeq : FsDir → Nat → List Nat → FsDir
  | st, _, [] => st
  | st, i, c :: cs => writeSeq (copy_or_link st c (frameName i)) (i + 1) cs

/-- The hold loop `for k in range(1, hold_frames + 1)`: each iteration
re-reads the staged last frame and places its bytes at
`frame_{last_idx + k:03d}.png`. -/
def holdFold (lastIdx : Nat) (st : FsDir) (ks : List Nat) : FsDir :=
  ks.foldl
    (fun s k =>
      match s (frameName lastIdx) with
      | some c => copy_or_link s c (frameName (lastIdx + k))
      | none => s)
    st

inductive StageStatus where
  | ok
  | noRuns
  | noFrames
deriving DecidableEq

/-- The write phase of staging: clear stale frames, renumber the batch
in, then extend the tail with held copies (guarded, as in the source,
by the staged last frame existing). -/
def stageWrites (staging0 : FsDir) (source_files : List (String × Nat))
    (hold_frames : Nat) : FsDir :=
  let st2 := writeSeq (eraseFrames staging0) 0 (source_files.map Prod.snd)
  let last_idx := source_files.length - 1
  if 0 < hold_frames then
    if (st2 (frameName last_idx)).isSome then
      holdFold last_idx st2 (List.range' 1 hold_frames)
    else st2
  else st2

/-- `deploy-wallpaper.stage_from_latest_run`.  A parent directory is
given as the list of its immediate subdirectories plus the current
contents of its `staging` subdirectory; the result is the new staging
contents plus the outcome (the source returns the staging path on
success and `None` on either failure). -/
def stage_from_latest_run (subdirs : List RunDir) (staging0 : FsDir)
    (fps hold_last_sec : ℚ) (hold_mode : String) : FsDir × StageStatus :=
  match pyMaxMtime (subdirs.filter (fun d => d.name ≠ "staging")) with
  | none => (staging0, StageStatus.noRuns)
  | some latest =>
    let source_files := sourcePngs latest.files
    if source_files.isEmpty then (eraseFrames staging0, StageStatus.noFrames)
    else
      let st3 := stageWrites staging0 source_files (holdCount hold_last_sec fps)
      match lookupFile latest.files "manifest.json" with
      | some m => (writeFile st3 "current_manifest.json" m, StageStatus.ok)
      | none => (st3, StageStatus.ok)

/-! ### Source Locator (find_parent_dir_for_key) -/

/-- An immediate child of the output root, as `iterdir` sees it. -/
structure Entry where
  name : String
  isDir : Bool
deriving DecidableEq

/-- `deploy-wallpaper.find_parent_dir_for_key`: probe
`output_root / canonical_key` directly, else scan `iterdir` for the
first directory whose canonicalized name matches; the result is the
found directory's name. -/
def find_parent_dir_for_key (children : List Entry) (key : String) : Option String :=
  if children.any (fun c => c.isDir && c.name == key) then some key
  else
    (children.find? (fun c => c.isDir && canonicalize c.name == key)).map
      (fun c => c.name)

/-! ### Project map and Deployment Orchestrator (main) -/

/-- One record of `projects.json`; the empty string models a missing
field (the source reads `p.get("view_name", "")`). -/
structure ProjRec where
  view_name : String
  view_name_base : String
  project_path : String
deriving DecidableEq

/-- `p.get("view_name","") or p.get("view_name_base","")` (Python `or`
falls through on the falsy empty string). -/
def projNameOf (p : ProjRec) : String :=
  if p.view_name ≠ "" then p.view_name else p.view_name_base

/-- Python dict assignment: replace the value of an existing key in
place, else append the new binding. -/
def dictInsert (m : List (String × String)) (k v : String) : List (String × String) :=
  if m.any (fun kv => kv.1 == k) then
    m.map (fun kv => if kv.1 == k then (k, v) else kv)
  else m ++ [(k, v)]

/-- The dict comprehension of `main` building the canonical-key →
project-path map (later records overwrite earlier ones on a shared
key). -/
def buildProjects (l : List ProjRec) : List (String × String) :=
  l.foldl (fun m p => dictInsert m (canonicalize (projNameOf p)) p.project_path) []

/-- Python `dict.get`. -/
def dictGet (m : List (String × String)) (k : String) : Option String :=
  (m.find? (fun kv => kv.1 == k)).map (fun kv => kv.2)

/-- `projects.get(key) or projects.get(canonicalize(key))` followed by
the `if proj:` truthiness test of `main` (an empty path string is
falsy). -/
def projLookup (projects : List (String × String)) (key : String) : Option String :=
  let chosen :=
    match dictGet projects key with
    | some p => if p ≠ "" then some p else dictGet projects (canonicalize key)
    | none => dictGet projects (canonicalize key)
  match chosen with
  | some p => if p ≠ "" then some p else none
  | none => none

/-- A view's source folder under the output root: its name, its batch
subdirectories and its staging contents. -/
structure SourceTree where
  name : String
  subdirs : List RunDir
  staging : FsDir

/-- A project target on disk. -/
structure ProjDir where
  path : String
  hasMaterials : Bool
  materials : FsDir
  manifestOut : Option Nat

/-- The mutable filesystem state the orchestrator touches. -/
structure World where
  sources : List SourceTree
  projects : List ProjDir

/-- Per-view outcome, as reported by the per-view prints of
`deploy_latest_frames` / `main`. -/
inductive DeployOutcome where
  | skippedNoProject
  | failNoSource
  | failNoRuns
  | failNoFrames
  | stagedOnly
  | failNoMaterials
  | deployed
deriving DecidableEq

/-- The optional cache-busting clean: delete every `*.png` in the
materials directory. -/
def erasePngs (d : FsDir) : FsDir :=
  fun n => if isPngName n then none else d n

/-- Copying every staged `frame_*.png` into the materials directory
(same filenames, contents overwritten; the numeric copy order does not
affect the resulting contents since staged names are distinct). -/
def publishFrames (staging materials : FsDir) : FsDir :=
  fun n =>
    if isFrameName n then
      match staging n with
      | some c => some c
      | none => materials n
    else materials n

/-- `deploy-wallpaper.deploy_latest_frames` for one view: locate the
source folder, stage, then (unless stage-only) publish into the
project's materials folder, with every failure reported as this view's
outcome. -/
def deploy_latest_frames (w : World) (v : View) (projPath : String) (o : Opts) :
    World × DeployOutcome :=
  let key := build_view_key v
  match find_parent_dir_for_key (w.sources.map (fun s => ⟨s.name, true⟩)) key with
  | none => (w, DeployOutcome.failNoSource)
  | some nm =>
    match w.sources.find? (fun s => s.name == nm) with
    | none => (w, DeployOutcome.failNoSource)
    | some s =>
      let r := stage_from_latest_run s.subdirs s.staging o.fps o.hold_last_sec o.hold_mode
      let w' : World :=
        { w with
          sources := w.sources.map
            (fun t => if t.name == nm then { t with staging := r.1 } else t) }
      match r.2 with
      | StageStatus.noRuns => (w', DeployOutcome.failNoRuns)
      | StageStatus.noFrames => (w', DeployOutcome.failNoFrames)
      | StageStatus.ok =>
        if o.stage_only then (w', DeployOutcome.stagedOnly)
        else
          match w'.projects.find? (fun p => p.path == projPath) with
          | none => (w', DeployOutcome.failNoMaterials)
          | some p =>
            if !p.hasMaterials then (w', DeployOutcome.failNoMaterials)
            else
              let m1 := if o.clean_materials then erasePngs p.materials else p.materials
              let m2 := publishFrames r.1 m1
              let mOut :=
                match r.1 "current_manifest.json" with
                | some c => some c
                | none => p.manifestOut
              let w'' : World :=
                { w' with
                  projects := w'.projects.map
                    (fun q =>
                      if q.path == projPath then
                        { q with materials := m2, manifestOut := mOut }
                      else q) }
              (w'', DeployOutcome.deployed)

/-- One iteration of the `for view in views` loop of `main`. -/
def stepView (projects : List (String × String)) (cfg : RuntimeCfg) (env : Env)
    (acc : World × List (String × DeployOutcome)) (v : View) :
    World × List (String × DeployOutcome) :=
  let key := build_view_key v
  match projLookup projects key with
  | some proj =>
    let r := deploy_latest_frames acc.1 v proj (effective_opts key cfg env)
    (r.1, acc.2 ++ [(key, r.2)])
  | none => (acc.1, acc.2 ++ [(key, DeployOutcome.skippedNoProject)])

/-- The run report: one outcome per configured view, plus the final
"All deployment tasks complete" summary. -/
structure RunReport where
  outcomes : List (String × DeployOutcome)
  completed : Bool

/-- `deploy-wallpaper.main` after the two input files have parsed: build
the project map, loop over every configured view, then print the
summary. -/
def mainRun (w : World) (views : List View) (projs_raw : List ProjRec)
    (cfg : RuntimeCfg) (env : Env) : World × RunReport :=
  let projects := buildProjects projs_raw
  let r := views.foldl (stepView projects cfg env) (w, [])
  (r.1, { outcomes := r.2, completed := true })

/-! ### Theorems: canonicalization -/

theorem map_self_of {α : Type} (f : α → α) :
    ∀ l : List α, (∀ a ∈ l, f a = a) → l.map f = l := by
  intro l
  induction l with
  | nil => intro _; rfl
  | cons a as ih =>
    intro h
    simp only [List.map_cons]
    rw [h a (by simp), ih (fun b hb => h b (by simp [hb]))]

theorem filter_self_of {α : Type} (p : α → Bool) :
    ∀ l : List α, (∀ a ∈ l, p a = true) → l.filter p = l := by
  intro l
  induction l with
  | nil => intro _; rfl
  | cons a as ih =>
    intro h
    rw [List.filter_cons, if_pos (h a (by simp)), ih (fun b hb => h b (by simp [hb]))]

theorem mem_canonCore (l : List Char) :
    ∀ c ∈ canonCore l,
      keepChar c = true ∧ mapMicro c = c ∧ mapMu c = c ∧ mapSpace c = c := by
  intro c hc
  rw [canonCore, List.mem_filter] at hc
  obtain ⟨hm, hk⟩ := hc
  simp only [List.mem_map] at hm
  obtain ⟨b1, ⟨b0, ⟨a, _, rfl⟩, rfl⟩, rfl⟩ := hm
  have h1 : (mapMicro a).toNat ≠ 0xB5 := by
    rw [mapMicro]
    split
    · decide
    · next h => simpa using h
  have h2 : (mapMu (mapMicro a)).toNat ≠ 0xB5 := by
    rw [mapMu]
    split
    · decide
    · exact h1
  have h3 : (mapMu (mapMicro a)).toNat ≠ 0x3BC := by
    rw [mapMu]
    split
    · decide
    · next h => simpa using h
  have h4 : (mapSpace (mapMu (mapMicro a))).toNat ≠ 0xB5 := by
    rw [mapSpace]
    split
    · decide
    · exact h2
  have h5 : (mapSpace (mapMu (mapMicro a))).toNat ≠ 0x3BC := by
    rw [mapSpace]
    split
    · decide
    · exact h3
  have h6 : (mapSpace (mapMu (mapMicro a))).toNat ≠ 32 := by
    rw [mapSpace]
    split
    · decide
    · next h => simpa using h
  refine ⟨hk, ?_, ?_, ?_⟩
  · rw [mapMicro, if_neg (by simpa using h4)]
  · rw [mapMu, if_neg (by simpa using h5)]
  · rw [mapSpace, if_neg (by simpa using h6)]

theorem canonCore_idem (l : List Char) : canonCore (canonCore l) = canonCore l := by
  have h := mem_canonCore l
  conv_lhs => rw [canonCore]
  rw [map_self_of mapMicro _ (fun a ha => (h a ha).2.1),
    map_self_of mapMu _ (fun a ha => (h a ha).2.2.1),
    map_self_of mapSpace _ (fun a ha => (h a ha).2.2.2),
    filter_self_of keepChar _ (fun a ha => (h a ha).1)]

/-- C8: `canonicalize` is idempotent: for every string `s`,
`canonicalize (canonicalize s) = canonicalize s`. -/
theorem c8_canonicalize_idempotent (s : String) :
    canonicalize (canonicalize s) = canonicalize s :=
  congrArg String.mk (canonCore_idem s.data)

/-- C3 counterexample: `canonicalize` applied to the non-ASCII letter
`é` keeps it (CPython's `\w` is unicode-aware), so the output is not
confined to `[A-Za-z0-9_-]`. -/
theorem c3_nonascii_cx :
    (canonicalize "é").data.all isAsciiKeyChar = false ∧ canonicalize "é" = "é" := by
  constructor
  · decide
  · decide

/-- C3 (amended): `canonicalize` is total by construction and its
output contains only unicode word characters, hyphens and underscores;
when every input character is ASCII, the output is confined to the
ASCII set `[A-Za-z0-9_-]`. -/
theorem c3_canonicalize_charset_amended (s : String) :
    (canonicalize s).data.all keepChar = true ∧
      ((∀ c ∈ s.data, c.toNat < 128) →
        (canonicalize s).data.all isAsciiKeyChar = true) := by
  constructor
  · rw [List.all_eq_true]
    intro c hc
    exact (mem_canonCore s.data c hc).1
  · intro hascii
    rw [List.all_eq_true]
    intro c hc
    have hk := (mem_canonCore s.data c hc).1
    have hsmall : c.toNat < 128 := by
      change c ∈ canonCore s.data at hc
      rw [canonCore, List.mem_filter] at hc
      obtain ⟨hm, _⟩ := hc
      simp only [List.mem_map] at hm
      obtain ⟨b1, ⟨b0, ⟨a, ha, rfl⟩, rfl⟩, rfl⟩ := hm
      have ha128 := hascii a ha
      rw [mapMicro]
      split
      · rw [mapMu]
        split
        · rw [mapSpace]; split <;> decide
        · rw [mapSpace]; split
          · decide
          · decide
      · rw [mapMu]
        split
        · rw [mapSpace]; split <;> decide
        · rw [mapSpace]
          split
          · decide
          · exact ha128
    rw [keepChar, Bool.or_eq_true, Bool.or_eq_true] at hk
    rw [isAsciiKeyChar]
    rcases hk with (hw | hd) | hu
    · rw [pyIsWordChar] at hw
      simp only [Bool.or_eq_true, Bool.and_eq_true, decide_eq_true_eq,
        beq_iff_eq] at hw
      simp only [Bool.or_eq_true, Bool.and_eq_true, decide_eq_true_eq,
        beq_iff_eq]
      omega
    · simp only [beq_iff_eq] at hd
      subst hd
      decide
    · simp only [beq_iff_eq] at hu
      subst hu
      decide

/-- C3 witness: an all-ASCII input stays within `[A-Za-z0-9_-]`. -/
theorem c3_witness :
    (canonicalize "GOES-16 FD 02").data.all keepChar = true ∧
      (canonicalize "GOES-16 FD 02").data.all isAsciiKeyChar = true := by
  have h := c3_canonicalize_charset_amended "GOES-16 FD 02"
  exact ⟨h.1, h.2 (by decide)⟩

/-! ### Theorems: Source Locator -/

/-- C9: `find_parent_dir_for_key` first probes `output_root/key`
directly and returns it when a directory child of that exact name
exists; otherwise it returns the first directory child whose
canonicalized name equals the key, and not-found when neither exists;
any returned name arose one of those two ways. -/
theorem c9_find_source_dir (children : List Entry) (key : String) :
    (children.any (fun c => c.isDir && c.name == key) = true →
        find_parent_dir_for_key children key = some key) ∧
      (children.any (fun c => c.isDir && c.name == key) = false →
        find_parent_dir_for_key children key =
          (children.find? (fun c => c.isDir && canonicalize c.name == key)).map
            (fun c => c.name)) ∧
      (∀ r, find_parent_dir_for_key children key = some r →
        (∃ c ∈ children, c.isDir = true ∧ c.name = key ∧ r = key) ∨
          (∃ c ∈ children, c.isDir = true ∧ canonicalize c.name = key ∧ r = c.name)) := by
  refine ⟨?_, ?_, ?_⟩
  · intro h
    rw [find_parent_dir_for_key, if_pos h]
  · intro h
    rw [find_parent_dir_for_key, if_neg (by simp [h])]
  · intro r hr
    rw [find_parent_dir_for_key] at hr
    split at hr
    · next h =>
      left
      rw [List.any_eq_true] at h
      obtain ⟨c, hc, hp⟩ := h
      rw [Bool.and_eq_true, beq_iff_eq] at hp
      exact ⟨c, hc, hp.1, hp.2, (Option.some_inj.mp hr).symm⟩
    · right
      rw [Option.map_eq_some'] at hr
      obtain ⟨c, hc, hrc⟩ := hr
      have hmem := List.mem_of_find?_eq_some hc
      have hp := List.find?_some hc
      rw [Bool.and_eq_true, beq_iff_eq] at hp
      exact ⟨c, hmem, hp.1, hp.2, hrc.symm⟩

/-- C9 witness: a source folder named with a raw micro sign is found
when queried with its canonicalized key. -/
theorem c9_witness :
    find_parent_dir_for_key [⟨"GOES_µsec_IR", true⟩] "GOES_msec_IR" =
        some "GOES_µsec_IR" ∧
      canonicalize "GOES_µsec_IR" = "GOES_msec_IR" := by
  have h := (c9_find_source_dir [⟨"GOES_µsec_IR", true⟩] "GOES_msec_IR").2.1 (by decide)
  exact ⟨h.trans (by decide), by decide⟩

/-! ### Theorems: project map -/

theorem dictGet_cons (kv : String × String) (m : List (String × String)) (key : String) :
    dictGet (kv :: m) key = if kv.1 = key then some kv.2 else dictGet m key := by
  by_cases h : kv.1 = key
  · rw [dictGet, List.find?_cons_of_pos _ (by simpa using h), if_pos h]
    rfl
  · rw [dictGet, List.find?_cons_of_neg _ (by simpa using h), if_neg h]
    rfl

theorem dictGet_map_ne (m : List (String × String)) (k v key : String) (hne : key ≠ k) :
    dictGet (m.map (fun kv => if kv.1 == k then (k, v) else kv)) key = dictGet m key := by
  induction m with
  | nil => rfl
  | cons kv rest ih =>
    rw [List.map_cons]
    by_cases h : kv.1 = k
    · rw [if_pos (by simpa using h), dictGet_cons, dictGet_cons,
        if_neg (show ¬ ((k, v).1 = key) from fun hh => hne hh.symm),
        if_neg (show ¬ (kv.1 = key) from fun hh => hne (hh.symm.trans h)), ih]
    · rw [if_neg (by simpa using h), dictGet_cons, dictGet_cons]
      by_cases h2 : kv.1 = key
      · rw [if_pos h2, if_pos h2]
      · rw [if_neg h2, if_neg h2, ih]

theorem dictGet_map_hit (m : List (String × String)) (k v : String)
    (hany : m.any (fun kv => kv.1 == k) = true) :
    dictGet (m.map (fun kv => if kv.1 == k then (k, v) else kv)) k = some v := by
  induction m with
  | nil => simp at hany
  | cons kv rest ih =>
    rw [List.map_cons]
    by_cases h : kv.1 = k
    · rw [if_pos (by simpa using h), dictGet_cons, if_pos rfl]
    · rw [if_neg (by simpa using h), dictGet_cons, if_neg h]
      apply ih
      rw [List.any_cons] at hany
      simpa [h] using hany

theorem dictGet_none_of_not_any (m : List (String × String)) (k : String)
    (hany : m.any (fun kv => kv.1 == k) = false) : dictGet m k = none := by
  induction m with
  | nil => rfl
  | cons kv rest ih =>
    rw [List.any_cons, Bool.or_eq_false_iff] at hany
    rw [dictGet_cons, if_neg (by simpa using hany.1)]
    exact ih hany.2

theorem dictGet_append_single (m : List (String × String)) (k v key : String) :
    dictGet (m ++ [(k, v)]) key =
      match dictGet m key with
      | some w => some w
      | none => if k = key then some v else none := by
  induction m with
  | nil =>
    show dictGet [(k, v)] key = if k = key then some v else none
    rw [dictGet_cons]
    rfl
  | cons kv rest ih =>
    rw [List.cons_append, dictGet_cons, dictGet_cons]
    by_cases h : kv.1 = key
    · rw [if_pos h, if_pos h]
    · rw [if_neg h, if_neg h, ih]

theorem dictGet_insert (m : List (String × String)) (k v key : String) :
    dictGet (dictInsert m k v) key = if k = key then some v else dictGet m key := by
  rw [dictInsert]
  split
  · next hany =>
    by_cases h : k = key
    · subst h
      rw [if_pos rfl]
      exact dictGet_map_hit m k v hany
    · rw [if_neg h]
      exact dictGet_map_ne m k v key (fun hh => h hh.symm)
  · next hany =>
    rw [dictGet_append_single]
    by_cases h : k = key
    · subst h
      rw [dictGet_none_of_not_any m k (Bool.eq_false_iff.mpr hany)]
    · rw [if_neg h]
      cases hdg : dictGet m key with
      | some w => rw [if_neg h]
      | none => simp [h]

/-- C10: the project map keeps, for every canonical key, exactly the
`project_path` of the record appearing last among those whose name
canonicalizes to that key; earlier colliding records are never
observable through lookup. -/
theorem c10_project_map_last_wins (l : List ProjRec) (key : String) :
    dictGet (buildProjects l) key =
      (l.reverse.find? (fun p => canonicalize (projNameOf p) == key)).map
        (fun p => p.project_path) := by
  induction l using List.reverseRecOn with
  | nil => rfl
  | append_singleton l p ih =>
    rw [buildProjects, List.foldl_append, List.foldl_cons, List.foldl_nil]
    rw [show l.foldl
        (fun m q => dictInsert m (canonicalize (projNameOf q)) q.project_path) [] =
      buildProjects l from rfl]
    rw [dictGet_insert, List.reverse_append, List.reverse_singleton,
      List.singleton_append]
    by_cases h : canonicalize (projNameOf p) = key
    · rw [if_pos h, List.find?_cons_of_pos _ (by simpa using h)]
      rfl
    · rw [if_neg h, List.find?_cons_of_neg _ (by simpa using h), ih]

/-! ### Theorems: Config Resolver -/

theorem applyCleanEnv_fps (d : Opts) (env : Env) :
    (applyCleanEnv d env).fps = d.fps := by
  rw [applyCleanEnv]; split <;> rfl

theorem applyCleanEnv_hold (d : Opts) (env : Env) :
    (applyCleanEnv d env).hold_last_sec = d.hold_last_sec := by
  rw [applyCleanEnv]; split <;> rfl

theorem applyCleanEnv_so (d : Opts) (env : Env) :
    (applyCleanEnv d env).stage_only = d.stage_only := by
  rw [applyCleanEnv]; split <;> rfl

theorem applyStageOnlyEnv_fps (d : Opts) (env : Env) :
    (applyStageOnlyEnv d env).fps = d.fps := by
  rw [applyStageOnlyEnv]; split <;> rfl

theorem applyStageOnlyEnv_hold (d : Opts) (env : Env) :
    (applyStageOnlyEnv d env).hold_last_sec = d.hold_last_sec := by
  rw [applyStageOnlyEnv]; split <;> rfl

theorem applyStageOnlyEnv_clean (d : Opts) (env : Env) :
    (applyStageOnlyEnv d env).clean_materials = d.clean_materials := by
  rw [applyStageOnlyEnv]; split <;> rfl

theorem applyHoldLastEnv_clean (d : Opts) (env : Env) :
    (applyHoldLastEnv d env).clean_materials = d.clean_materials := by
  rw [applyHoldLastEnv]
  split
  · split
    · split <;> rfl
    · rfl
  · rfl

theorem applyHoldLastEnv_so (d : Opts) (env : Env) :
    (applyHoldLastEnv d env).stage_only = d.stage_only := by
  rw [applyHoldLastEnv]
  split
  · split
    · split <;> rfl
    · rfl
  · rfl

theorem applyHoldLastEnv_of_none (d : Opts) (env : Env)
    (h : pyInt? env.HOLD_LAST_FRAMES = none) : applyHoldLastEnv d env = d := by
  rw [applyHoldLastEnv]
  split
  · rw [h]
  · rfl

theorem applyHoldModeEnv_fps (d : Opts) (env : Env) :
    (applyHoldModeEnv d env).fps = d.fps := by
  rw [applyHoldModeEnv]; split <;> rfl

theorem applyHoldModeEnv_hold (d : Opts) (env : Env) :
    (applyHoldModeEnv d env).hold_last_sec = d.hold_last_sec := by
  rw [applyHoldModeEnv]; split <;> rfl

theorem applyHoldModeEnv_clean (d : Opts) (env : Env) :
    (applyHoldModeEnv d env).clean_materials = d.clean_materials := by
  rw [applyHoldModeEnv]; split <;> rfl

theorem applyHoldModeEnv_so (d : Opts) (env : Env) :
    (applyHoldModeEnv d env).stage_only = d.stage_only := by
  rw [applyHoldModeEnv]; split <;> rfl

/-- C6 (amended): when the `HOLD_LAST_FRAMES` override parses as an
integer `n` and the already-resolved fps is non-zero, the resolver sets
`hold_last_sec` to `n / fps`; there is no epsilon clamp in the code, and
at `fps = 0` the division raises and the override is silently dropped
(see the counterexample). -/
theorem c6_hold_override_amended (d : Opts) (env : Env) (n : Int)
    (hp : pyInt? env.HOLD_LAST_FRAMES = some n) (hf : d.fps ≠ 0) :
    (applyEnv d env).hold_last_sec = (n : ℚ) / d.fps := by
  rw [applyEnv, applyHoldModeEnv_hold]
  set d2 := applyStageOnlyEnv (applyCleanEnv d env) env with hd2
  have hfps : d2.fps = d.fps := by
    rw [hd2, applyStageOnlyEnv_fps, applyCleanEnv_fps]
  have hne : env.HOLD_LAST_FRAMES ≠ "" := by
    intro h
    rw [h] at hp
    exact Option.noConfusion hp
  rw [applyHoldLastEnv, if_pos hne, hp]
  show (if d2.fps = 0 then d2
    else { d2 with hold_last_sec := (n : ℚ) / d2.fps }).hold_last_sec = (n : ℚ) / d.fps
  rw [if_neg (by rw [hfps]; exact hf)]
  show (n : ℚ) / d2.fps = (n : ℚ) / d.fps
  rw [hfps]

/-- C6 witness: `fps = 5` with an environment hold override of `10`
frames resolves `hold_last_sec` to exactly `2`. -/
theorem c6_witness :
    (applyEnv ⟨5, 0, false, false, "hardlink"⟩ ⟨"", "", "10", ""⟩).hold_last_sec = 2 := by
  have h := c6_hold_override_amended ⟨5, 0, false, false, "hardlink"⟩
    ⟨"", "", "10", ""⟩ 10 (by decide) (by decide)
  rw [h]
  norm_num

/-- C6 counterexample: with resolved `fps = 0` and a well-formed hold
override of `10` frames, the code keeps the prior `hold_last_sec` (here
`7`) instead of computing `10 / max(0, epsilon)` — the claimed formula
is not total in the code. -/
theorem c6_fps_zero_cx :
    (applyEnv ⟨0, 7, false, false, "hardlink"⟩ ⟨"", "", "10", ""⟩).hold_last_sec = 7 ∧
      pyInt? "10" = some 10 := by
  exact ⟨by decide, by decide⟩

/-- C7 (amended): a malformed (non-integer) hold override is ignored
and the prior layer's `hold_last_sec` is kept, and every override step
is total; but a non-empty clean/stage-only flag is always interpreted as
the comparison `value == "1"`, so a malformed boolean flag replaces the
prior layer's value with `false` rather than keeping it. -/
theorem c7_env_failsoft_amended (d : Opts) (env : Env)
    (hmal : pyInt? env.HOLD_LAST_FRAMES = none) :
    (applyEnv d env).hold_last_sec = d.hold_last_sec ∧
      (env.CLEAN_MATERIALS ≠ "" →
        (applyEnv d env).clean_materials = (env.CLEAN_MATERIALS == "1")) ∧
      (env.CLEAN_MATERIALS = "" →
        (applyEnv d env).clean_materials = d.clean_materials) ∧
      (env.STAGE_ONLY ≠ "" →
        (applyEnv d env).stage_only = (env.STAGE_ONLY == "1")) ∧
      (env.STAGE_ONLY = "" →
        (applyEnv d env).stage_only = d.stage_only) := by
  refine ⟨?_, ?_, ?_, ?_, ?_⟩
  · rw [applyEnv, applyHoldModeEnv_hold, applyHoldLastEnv_of_none _ _ hmal,
      applyStageOnlyEnv_hold, applyCleanEnv_hold]
  · intro h
    rw [applyEnv, applyHoldModeEnv_clean, applyHoldLastEnv_of_none _ _ hmal,
      applyStageOnlyEnv_clean, applyCleanEnv, if_pos h]
  · intro h
    rw [applyEnv, applyHoldModeEnv_clean, applyHoldLastEnv_of_none _ _ hmal,
      applyStageOnlyEnv_clean, applyCleanEnv, if_neg (by simp [h])]
  · intro h
    rw [applyEnv, applyHoldModeEnv_so, applyHoldLastEnv_of_none _ _ hmal,
      applyStageOnlyEnv, if_pos h]
  · intro h
    rw [applyEnv, applyHoldModeEnv_so, applyHoldLastEnv_of_none _ _ hmal,
      applyStageOnlyEnv, if_neg (by simp [h]), applyCleanEnv_so]

/-- C7 witness: a malformed hold override (`"abc"`) keeps the prior
`hold_last_sec`, while a malformed clean flag (`"yes"`) coerces to
`false`. -/
theorem c7_witness :
    (applyEnv ⟨2, 3, true, false, "copy"⟩ ⟨"yes", "", "abc", ""⟩).hold_last_sec = 3 ∧
      (applyEnv ⟨2, 3, true, false, "copy"⟩ ⟨"yes", "", "abc", ""⟩).clean_materials = false := by
  have h := c7_env_failsoft_amended ⟨2, 3, true, false, "copy"⟩
    ⟨"yes", "", "abc", ""⟩ (by decide)
  exact ⟨h.1, (h.2.1 (by decide)).trans (by decide)⟩

/-- C7 counterexample: the per-view layer sets `clean_materials = true`;
the malformed environment flag `CLEAN_MATERIALS="yes"` does not keep
that value — it overwrites it with `false`. -/
theorem c7_clean_flag_cx :
    (applyEnv ⟨2, 0, true, false, "hardlink"⟩ ⟨"yes", "", "", ""⟩).clean_materials = false := by
  decide

/-! ### Theorems: frame filenames -/

theorem digitChar_toNat (d : Nat) (h : d < 10) : (Nat.digitChar d).toNat = 48 + d := by
  interval_cases d <;> rfl

theorem decDigitsAux_irrel :
    ∀ f1 f2 n, n < f1 → n < f2 → decDigitsAux f1 n = decDigitsAux f2 n := by
  intro f1
  induction f1 with
  | zero => intro f2 n h1 _; omega
  | succ f1 ih =>
    intro f2 n h1 h2
    cases f2 with
    | zero => omega
    | succ f2 =>
      show (if n < 10 then [Nat.digitChar n]
          else decDigitsAux f1 (n / 10) ++ [Nat.digitChar (n % 10)]) =
        (if n < 10 then [Nat.digitChar n]
          else decDigitsAux f2 (n / 10) ++ [Nat.digitChar (n % 10)])
      by_cases h : n < 10
      · rw [if_pos h, if_pos h]
      · rw [if_neg h, if_neg h, ih f2 (n / 10) (by omega) (by omega)]

theorem decDigits_eq (n : Nat) :
    decDigits n =
      if n < 10 then [Nat.digitChar n]
      else decDigits (n / 10) ++ [Nat.digitChar (n % 10)] := by
  show (if n < 10 then [Nat.digitChar n]
      else decDigitsAux n (n / 10) ++ [Nat.digitChar (n % 10)]) = _
  by_cases h : n < 10
  · rw [if_pos h, if_pos h]
  · rw [if_neg h, if_neg h,
      decDigitsAux_irrel n (n / 10 + 1) (n / 10) (by omega) (by omega)]
    rfl

theorem decVal_go (n : Nat) :
    ∀ a : Nat,
      (decDigits n).foldl (fun x c => 10 * x + (c.toNat - 48)) a =
        a * 10 ^ (decDigits n).length + n := by
  induction n using Nat.strong_induction_on with
  | _ n ih =>
    intro a
    rw [decDigits_eq]
    split
    · next h =>
      simp only [List.foldl_cons, List.foldl_nil, List.length_cons,
        List.length_nil]
      rw [digitChar_toNat n h, pow_one]
      omega
    · next h =>
      rw [List.foldl_append,
        ih (n / 10) (Nat.div_lt_self (by omega) (by omega))]
      simp only [List.foldl_cons, List.foldl_nil, List.length_append,
        List.length_cons, List.length_nil]
      rw [digitChar_toNat (n % 10) (Nat.mod_lt _ (by omega)), pow_succ,
        ← mul_assoc]
      generalize a * 10 ^ (decDigits (n / 10)).length = u
      omega

theorem decVal_decDigits (n : Nat) : decVal (decDigits n) = n := by
  rw [decVal, decVal_go n 0]
  simp

theorem decVal_replicate_zero (k : Nat) (l : List Char) :
    decVal (List.replicate k '0' ++ l) = decVal l := by
  induction k with
  | zero => rfl
  | succ k ih =>
    rw [List.replicate_succ, List.cons_append, decVal, List.foldl_cons]
    have h0 : (10 * 0 + ('0'.toNat - 48)) = 0 := by decide
    rw [h0]
    exact ih

theorem pad3_inj {m n : Nat} (h : pad3 m = pad3 n) : m = n := by
  have hv := congrArg decVal h
  rwa [pad3, pad3, decVal_replicate_zero, decVal_replicate_zero,
    decVal_decDigits, decVal_decDigits] at hv

theorem pad3_length (n : Nat) : 3 ≤ (pad3 n).length := by
  rw [pad3, List.length_append, List.length_replicate]
  omega

theorem frameName_inj {i j : Nat} (h : frameName i = frameName j) : i = j := by
  have hd : "frame_".data ++ pad3 i ++ ".png".data =
      "frame_".data ++ pad3 j ++ ".png".data := congrArg String.data h
  exact pad3_inj (List.append_cancel_left (List.append_cancel_right hd))

theorem isFrameName_frameName (i : Nat) : isFrameName (frameName i) = true := by
  rw [isFrameName, frameName]
  have h1 : "frame_".data.isPrefixOf
      ("frame_".data ++ pad3 i ++ ".png".data) = true := by
    rw [List.isPrefixOf_iff_prefix, List.append_assoc]
    exact List.prefix_append _ _
  have h2 : ".png".data.isSuffixOf
      ("frame_".data ++ pad3 i ++ ".png".data) = true := by
    rw [List.isSuffixOf_iff_suffix]
    exact List.suffix_append _ _
  have h3 : 10 ≤ ("frame_".data ++ pad3 i ++ ".png".data).length := by
    rw [List.length_append, List.length_append]
    have := pad3_length i
    show 10 ≤ "frame_".data.length + (pad3 i).length + ".png".data.length
    have h6 : "frame_".data.length = 6 := by decide
    have h4 : ".png".data.length = 4 := by decide
    omega
  show ("frame_".data.isPrefixOf _ && _ && _) = true
  rw [h1, h2]
  simp only [Bool.true_and, Bool.and_true, decide_eq_true_eq]
  exact h3

theorem ne_frameName_of_not_isFrameName {nm : String} {i : Nat}
    (h : isFrameName nm = false) : nm ≠ frameName i := by
  intro he
  rw [he, isFrameName_frameName i] at h
  exact Bool.noConfusion h

theorem manifest_not_frameName (i : Nat) :
    "current_manifest.json" ≠ frameName i :=
  ne_frameName_of_not_isFrameName (by decide)

/-! ### Theorems: staging writes -/

theorem writeSeq_other (cs : List Nat) :
    ∀ (st : FsDir) (i : Nat) (nm : String),
      (∀ j, j < cs.length → nm ≠ frameName (i + j)) → writeSeq st i cs nm = st nm := by
  induction cs with
  | nil => intro st i nm _; rfl
  | cons c cs ih =>
    intro st i nm h
    have h0 : nm ≠ frameName i := by
      have := h 0 (by simp)
      simpa using this
    rw [writeSeq, ih (copy_or_link st c (frameName i)) (i + 1) nm
      (fun j hj => by
        have hlt : j + 1 < (c :: cs).length := by
          rw [List.length_cons]
          omega
        have := h (j + 1) hlt
        rwa [show i + (j + 1) = i + 1 + j by omega] at this)]
    show (if nm = frameName i then some c else st nm) = st nm
    rw [if_neg h0]

theorem writeSeq_at (cs : List Nat) :
    ∀ (st : FsDir) (i j : Nat), j < cs.length →
      writeSeq st i cs (frameName (i + j)) = cs[j]? := by
  induction cs with
  | nil => intro st i j hj; simp at hj
  | cons c cs ih =>
    intro st i j hj
    rw [writeSeq]
    cases j with
    | zero =>
      rw [writeSeq_other cs _ (i + 1) _
        (fun j' _ he => by
          have := frameName_inj he
          omega)]
      show (if frameName (i + 0) = frameName i then some c else st _) = (c :: cs)[0]?
      rw [if_pos (by rw [Nat.add_zero])]
      simp
    | succ j' =>
      rw [show i + (j' + 1) = (i + 1) + j' by omega,
        ih _ (i + 1) j' (by simpa using Nat.lt_of_succ_lt_succ hj)]
      simp

theorem holdFold_range' (lastIdx c : Nat) :
    ∀ (hf : Nat) (s0 : Nat) (st : FsDir), 1 ≤ s0 →
      st (frameName lastIdx) = some c →
      holdFold lastIdx st (List.range' s0 hf) =
        writeSeq st (lastIdx + s0) (List.replicate hf c) := by
  intro hf
  induction hf with
  | zero => intro s0 st _ _; rfl
  | succ hf ih =>
    intro s0 st hs0 hst
    rw [List.range'_succ]
    have hstep : holdFold lastIdx st (s0 :: List.range' (s0 + 1) hf) =
        holdFold lastIdx (copy_or_link st c (frameName (lastIdx + s0)))
          (List.range' (s0 + 1) hf) := by
      show holdFold lastIdx
          (match st (frameName lastIdx) with
           | some cc => copy_or_link st cc (frameName (lastIdx + s0))
           | none => st)
          (List.range' (s0 + 1) hf) = _
      rw [hst]
    rw [hstep, List.replicate_succ, writeSeq]
    have hpres : (copy_or_link st c (frameName (lastIdx + s0))) (frameName lastIdx) =
        some c := by
      show (if frameName lastIdx = frameName (lastIdx + s0) then some c
        else st (frameName lastIdx)) = some c
      rw [if_neg (fun he => by have := frameName_inj he; omega), hst]
    rw [ih (s0 + 1) _ (by omega) hpres,
      show lastIdx + (s0 + 1) = lastIdx + s0 + 1 by omega]

theorem last_content_exists (sf : List (String × Nat)) (hne : sf ≠ []) :
    ∃ c, (sf.map Prod.snd)[sf.length - 1]? = some c := by
  have hpos : 0 < sf.length := List.length_pos.mpr hne
  rw [List.getElem?_eq_getElem (by rw [List.length_map]; omega)]
  exact ⟨_, rfl⟩

theorem stageWrites_eq (staging0 : FsDir) (sf : List (String × Nat)) (hf : Nat)
    (hne : sf ≠ []) (c : Nat) (hc : (sf.map Prod.snd)[sf.length - 1]? = some c) :
    stageWrites staging0 sf hf =
      writeSeq (writeSeq (eraseFrames staging0) 0 (sf.map Prod.snd))
        (sf.length - 1 + 1) (List.replicate hf c) := by
  rw [stageWrites]
  have hpos : 0 < sf.length := List.length_pos.mpr hne
  have hlast : writeSeq (eraseFrames staging0) 0 (sf.map Prod.snd)
      (frameName (sf.length - 1)) = some c := by
    have hj : sf.length - 1 < (sf.map Prod.snd).length := by
      rw [List.length_map]
      omega
    have := writeSeq_at (sf.map Prod.snd) (eraseFrames staging0) 0 (sf.length - 1) hj
    rw [Nat.zero_add] at this
    rw [this, hc]
  by_cases h0 : 0 < hf
  · rw [if_pos h0, if_pos (by rw [hlast]; rfl)]
    exact holdFold_range' (sf.length - 1) c hf 1 _ (le_refl 1) hlast
  · rw [if_neg h0]
    have hz : hf = 0 := by omega
    subst hz
    rfl

theorem stageWrites_frame_at (staging0 : FsDir) (sf : List (String × Nat)) (hf i : Nat)
    (hne : sf ≠ []) (hi : i < sf.length) :
    stageWrites staging0 sf hf (frameName i) = (sf.map Prod.snd)[i]? := by
  obtain ⟨c, hc⟩ := last_content_exists sf hne
  have hpos : 0 < sf.length := List.length_pos.mpr hne
  rw [stageWrites_eq staging0 sf hf hne c hc]
  rw [writeSeq_other (List.replicate hf c) _ (sf.length - 1 + 1) _
    (fun j _ he => by
      have := frameName_inj he
      omega)]
  have := writeSeq_at (sf.map Prod.snd) (eraseFrames staging0) 0 i
    (by rw [List.length_map]; exact hi)
  rwa [Nat.zero_add] at this

theorem stageWrites_hold_at (staging0 : FsDir) (sf : List (String × Nat)) (hf k : Nat)
    (hne : sf ≠ []) (hk1 : 1 ≤ k) (hk2 : k ≤ hf) :
    stageWrites staging0 sf hf (frameName (sf.length - 1 + k)) =
      (sf.map Prod.snd)[sf.length - 1]? := by
  obtain ⟨c, hc⟩ := last_content_exists sf hne
  rw [stageWrites_eq staging0 sf hf hne c hc, hc]
  rw [show sf.length - 1 + k = (sf.length - 1 + 1) + (k - 1) by omega]
  rw [writeSeq_at (List.replicate hf c) _ _ (k - 1)
    (by rw [List.length_replicate]; omega)]
  rw [List.getElem?_eq_getElem (by rw [List.length_replicate]; omega)]
  simp

theorem stageWrites_frame_none (staging0 : FsDir) (sf : List (String × Nat))
    (hf : Nat) (nm : String) (hne : sf ≠ []) (hfr : isFrameName nm = true)
    (hnot : ∀ i, i < sf.length + hf → nm ≠ frameName i) :
    stageWrites staging0 sf hf nm = none := by
  obtain ⟨c, hc⟩ := last_content_exists sf hne
  have hpos : 0 < sf.length := List.length_pos.mpr hne
  rw [stageWrites_eq staging0 sf hf hne c hc]
  rw [writeSeq_other (List.replicate hf c) _ _ _
    (fun j hj => by
      have hlt : j < hf := by simpa using hj
      exact hnot (sf.length - 1 + 1 + j) (by omega))]
  rw [writeSeq_other (sf.map Prod.snd) _ _ _
    (fun j hj => by
      have hlt : j < sf.length := by simpa using hj
      have := hnot j (by omega)
      rwa [Nat.zero_add])]
  show (if isFrameName nm = true then none else staging0 nm) = none
  rw [if_pos hfr]

theorem stageWrites_not_frame (staging0 : FsDir) (sf : List (String × Nat))
    (hf : Nat) (nm : String) (hne : sf ≠ []) (hfr : isFrameName nm = false) :
    stageWrites staging0 sf hf nm = staging0 nm := by
  obtain ⟨c, hc⟩ := last_content_exists sf hne
  rw [stageWrites_eq staging0 sf hf hne c hc]
  rw [writeSeq_other (List.replicate hf c) _ _ _
    (fun j _ => ne_frameName_of_not_isFrameName hfr)]
  rw [writeSeq_other (sf.map Prod.snd) _ _ _
    (fun j _ => ne_frameName_of_not_isFrameName hfr)]
  show (if isFrameName nm = true then none else staging0 nm) = staging0 nm
  rw [hfr]
  rfl

theorem stage_ok_eq (subdirs : List RunDir) (staging0 : FsDir) (fps sec : ℚ)
    (hm : String) (latest : RunDir)
    (hmax : pyMaxMtime (subdirs.filter (fun d => d.name ≠ "staging")) = some latest)
    (hne : sourcePngs latest.files ≠ []) :
    stage_from_latest_run subdirs staging0 fps sec hm =
      ((match lookupFile latest.files "manifest.json" with
        | some m =>
          writeFile (stageWrites staging0 (sourcePngs latest.files) (holdCount sec fps))
            "current_manifest.json" m
        | none => stageWrites staging0 (sourcePngs latest.files) (holdCount sec fps)),
       StageStatus.ok) := by
  have hE : (sourcePngs latest.files).isEmpty = false := by
    cases hsf : sourcePngs latest.files with
    | nil => exact absurd hsf hne
    | cons a l => rfl
  simp only [stage_from_latest_run, hmax, hE, Bool.false_eq_true, if_false]
  cases lookupFile latest.files "manifest.json" with
  | some m => rfl
  | none => rfl

theorem stage1_frame_at (subdirs : List RunDir) (staging0 : FsDir) (fps sec : ℚ)
    (hm : String) (latest : RunDir)
    (hmax : pyMaxMtime (subdirs.filter (fun d => d.name ≠ "staging")) = some latest)
    (hne : sourcePngs latest.files ≠ []) (i : Nat)
    (hi : i < (sourcePngs latest.files).length) :
    (stage_from_latest_run subdirs staging0 fps sec hm).1 (frameName i) =
      ((sourcePngs latest.files).map Prod.snd)[i]? := by
  rw [stage_ok_eq subdirs staging0 fps sec hm latest hmax hne]
  cases lookupFile latest.files "manifest.json" with
  | some m =>
    show (if frameName i = "current_manifest.json" then some m
      else stageWrites staging0 (sourcePngs latest.files) (holdCount sec fps)
        (frameName i)) = _
    rw [if_neg (fun he => manifest_not_frameName i he.symm)]
    exact stageWrites_frame_at _ _ _ _ hne hi
  | none => exact stageWrites_frame_at _ _ _ _ hne hi

theorem stage1_hold_at (subdirs : List RunDir) (staging0 : FsDir) (fps sec : ℚ)
    (hm : String) (latest : RunDir)
    (hmax : pyMaxMtime (subdirs.filter (fun d => d.name ≠ "staging")) = some latest)
    (hne : sourcePngs latest.files ≠ []) (k : Nat) (hk1 : 1 ≤ k)
    (hk2 : k ≤ holdCount sec fps) :
    (stage_from_latest_run subdirs staging0 fps sec hm).1
        (frameName ((sourcePngs latest.files).length - 1 + k)) =
      ((sourcePngs latest.files).map Prod.snd)[(sourcePngs latest.files).length - 1]? := by
  rw [stage_ok_eq subdirs staging0 fps sec hm latest hmax hne]
  cases lookupFile latest.files "manifest.json" with
  | some m =>
    show (if frameName ((sourcePngs latest.files).length - 1 + k) =
        "current_manifest.json" then some m
      else stageWrites staging0 (sourcePngs latest.files) (holdCount sec fps)
        (frameName _)) = _
    rw [if_neg (fun he => manifest_not_frameName _ he.symm)]
    exact stageWrites_hold_at _ _ _ _ hne hk1 hk2
  | none => exact stageWrites_hold_at _ _ _ _ hne hk1 hk2

theorem stage1_frame_none (subdirs : List RunDir) (staging0 : FsDir) (fps sec : ℚ)
    (hm : String) (latest : RunDir)
    (hmax : pyMaxMtime (subdirs.filter (fun d => d.name ≠ "staging")) = some latest)
    (hne : sourcePngs latest.files ≠ []) (nm : String) (hfr : isFrameName nm = true)
    (hnot : ∀ i, i < (sourcePngs latest.files).length + holdCount sec fps →
      nm ≠ frameName i) :
    (stage_from_latest_run subdirs staging0 fps sec hm).1 nm = none := by
  rw [stage_ok_eq subdirs staging0 fps sec hm latest hmax hne]
  have hnm : nm ≠ "current_manifest.json" := by
    intro he
    rw [he] at hfr
    exact Bool.noConfusion ((by decide : isFrameName "current_manifest.json" = false).symm.trans hfr)
  cases lookupFile latest.files "manifest.json" with
  | some m =>
    show (if nm = "current_manifest.json" then some m
      else stageWrites staging0 (sourcePngs latest.files) (holdCount sec fps) nm) = _
    rw [if_neg hnm]
    exact stageWrites_frame_none _ _ _ _ hne hfr hnot
  | none => exact stageWrites_frame_none _ _ _ _ hne hfr hnot

theorem stage1_manifest (subdirs : List RunDir) (staging0 : FsDir) (fps sec : ℚ)
    (hm : String) (latest : RunDir)
    (hmax : pyMaxMtime (subdirs.filter (fun d => d.name ≠ "staging")) = some latest)
    (hne : sourcePngs latest.files ≠ []) :
    (stage_from_latest_run subdirs staging0 fps sec hm).1 "current_manifest.json" =
      (match lookupFile latest.files "manifest.json" with
       | some m => some m
       | none => staging0 "current_manifest.json") := by
  rw [stage_ok_eq subdirs staging0 fps sec hm latest hmax hne]
  cases lookupFile latest.files "manifest.json" with
  | some m =>
    show (if "current_manifest.json" = "current_manifest.json" then some m
      else stageWrites staging0 (sourcePngs latest.files) (holdCount sec fps)
        "current_manifest.json") = some m
    rw [if_pos rfl]
  | none =>
    exact stageWrites_not_frame _ _ _ _ hne (by decide)

theorem stage1_other (subdirs : List RunDir) (staging0 : FsDir) (fps sec : ℚ)
    (hm : String) (latest : RunDir)
    (hmax : pyMaxMtime (subdirs.filter (fun d => d.name ≠ "staging")) = some latest)
    (hne : sourcePngs latest.files ≠ []) (nm : String)
    (hfr : isFrameName nm = false) (hnm : nm ≠ "current_manifest.json") :
    (stage_from_latest_run subdirs staging0 fps sec hm).1 nm = staging0 nm := by
  rw [stage_ok_eq subdirs staging0 fps sec hm latest hmax hne]
  cases lookupFile latest.files "manifest.json" with
  | some m =>
    show (if nm = "current_manifest.json" then some m
      else stageWrites staging0 (sourcePngs latest.files) (holdCount sec fps) nm) = _
    rw [if_neg hnm]
    exact stageWrites_not_frame _ _ _ _ hne hfr
  | none => exact stageWrites_not_frame _ _ _ _ hne hfr

theorem stage1_status (subdirs : List RunDir) (staging0 : FsDir) (fps sec : ℚ)
    (hm : String) (latest : RunDir)
    (hmax : pyMaxMtime (subdirs.filter (fun d => d.name ≠ "staging")) = some latest)
    (hne : sourcePngs latest.files ≠ []) :
    (stage_from_latest_run subdirs staging0 fps sec hm).2 = StageStatus.ok := by
  rw [stage_ok_eq subdirs staging0 fps sec hm latest hmax hne]

/-! ### Theorems: latest-batch selection -/

theorem foldl_maxM (l : List RunDir) :
    ∀ a : Nat, l.foldl (fun m d => max m d.mtime) a = max a (maxMtimeVal l) := by
  induction l with
  | nil => intro a; simp [maxMtimeVal]
  | cons d l ih =>
    intro a
    show l.foldl _ (max a d.mtime) = max a (maxMtimeVal (d :: l))
    rw [ih (max a d.mtime),
      show maxMtimeVal (d :: l) = max (max 0 d.mtime) (maxMtimeVal l) from by
        rw [maxMtimeVal, List.foldl_cons]
        exact ih (max 0 d.mtime),
      Nat.zero_max]
    exact Nat.max_assoc a d.mtime (maxMtimeVal l)

theorem maxMtimeVal_cons (d : RunDir) (l : List RunDir) :
    maxMtimeVal (d :: l) = max d.mtime (maxMtimeVal l) := by
  rw [maxMtimeVal, List.foldl_cons, foldl_maxM l (max 0 d.mtime), Nat.zero_max]

theorem mem_mtime_le (l : List RunDir) : ∀ d ∈ l, d.mtime ≤ maxMtimeVal l := by
  induction l with
  | nil => simp
  | cons e l ih =>
    intro d hd
    rw [maxMtimeVal_cons]
    rcases List.mem_cons.mp hd with h | h
    · subst h; exact Nat.le_max_left _ _
    · exact le_trans (ih d h) (Nat.le_max_right _ _)

theorem pickFold_spec (xs : List RunDir) :
    ∀ x : RunDir,
      (x :: xs).find? (fun d => d.mtime == maxMtimeVal (x :: xs)) =
        some (xs.foldl (fun c d => if c.mtime < d.mtime then d else c) x) := by
  induction xs with
  | nil =>
    intro x
    rw [List.foldl_nil]
    apply List.find?_cons_of_pos
    simp [maxMtimeVal_cons, maxMtimeVal]
  | cons y ys ih =>
    intro x
    rw [List.foldl_cons]
    by_cases hxy : x.mtime < y.mtime
    · rw [if_pos hxy]
      have hM : maxMtimeVal (x :: y :: ys) = maxMtimeVal (y :: ys) := by
        rw [maxMtimeVal_cons]
        exact Nat.max_eq_right
          (le_trans (le_of_lt hxy) (mem_mtime_le _ y (by simp)))
      rw [hM]
      have hy : y.mtime ≤ maxMtimeVal (y :: ys) := mem_mtime_le _ y (by simp)
      rw [List.find?_cons_of_neg _ (by simp only [beq_iff_eq]; omega)]
      exact ih y
    · rw [if_neg hxy]
      have hyx : y.mtime ≤ x.mtime := by omega
      have hM : maxMtimeVal (x :: y :: ys) = maxMtimeVal (x :: ys) := by
        rw [maxMtimeVal_cons, maxMtimeVal_cons y, maxMtimeVal_cons x,
          ← Nat.max_assoc, Nat.max_eq_left hyx]
      rw [hM]
      by_cases hpx : x.mtime = maxMtimeVal (x :: ys)
      · rw [List.find?_cons_of_pos _ (by simpa using hpx)]
        have hx := ih x
        rw [List.find?_cons_of_pos _ (by simpa using hpx)] at hx
        exact hx
      · have hxle : x.mtime ≤ maxMtimeVal (x :: ys) := by
          rw [maxMtimeVal_cons]
          exact Nat.le_max_left _ _
        have hpy : ¬ (y.mtime = maxMtimeVal (x :: ys)) := by omega
        rw [List.find?_cons_of_neg _ (by simpa using hpx),
          List.find?_cons_of_neg _ (by simpa using hpy)]
        have hx := ih x
        rw [List.find?_cons_of_neg _ (by simpa using hpx)] at hx
        exact hx

theorem pyMaxMtime_first_max (l : List RunDir) (hne : l ≠ []) :
    pyMaxMtime l = l.find? (fun d => d.mtime == maxMtimeVal l) := by
  cases l with
  | nil => exact absurd rfl hne
  | cons x xs =>
    rw [pyMaxMtime]
    exact (pickFold_spec xs x).symm

/-- C4 (amended): in frame staging, the selected latest batch is the
first element, in directory-walk order, among the non-`staging`
subdirectories whose modification time attains the maximum — under
equal timestamps the walk's FIRST candidate is chosen, not the last. -/
theorem c4_first_max_amended (subdirs : List RunDir)
    (hne : subdirs.filter (fun d => d.name ≠ "staging") ≠ []) :
    pyMaxMtime (subdirs.filter (fun d => d.name ≠ "staging")) =
      (subdirs.filter (fun d => d.name ≠ "staging")).find?
        (fun d => d.mtime ==
          maxMtimeVal (subdirs.filter (fun d => d.name ≠ "staging"))) :=
  pyMaxMtime_first_max _ hne

/-- C4 witness: the `staging` entry is excluded despite its larger
mtime, and the remaining maximum is selected. -/
theorem c4_witness :
    pyMaxMtime ([⟨"staging", 9, []⟩, ⟨"a", 5, []⟩, ⟨"b", 7, []⟩].filter
        (fun d => d.name ≠ "staging")) = some ⟨"b", 7, []⟩ := by
  have h := c4_first_max_amended [⟨"staging", 9, []⟩, ⟨"a", 5, []⟩, ⟨"b", 7, []⟩]
    (by decide)
  exact h.trans (by decide)

/-- C4 counterexample: two batches share the maximal mtime; the
directory walk returns `b` last, but the code selects `a`, the first —
and the staged frame indeed carries `a`'s bytes, not `b`'s. -/
theorem c4_tie_first_cx :
    pyMaxMtime ([⟨"a", 5, [("f.png", 1)]⟩, ⟨"b", 5, [("f.png", 2)]⟩].filter
        (fun d => d.name ≠ "staging")) = some ⟨"a", 5, [("f.png", 1)]⟩ ∧
      [(⟨"a", 5, [("f.png", 1)]⟩ : RunDir), ⟨"b", 5, [("f.png", 2)]⟩].getLast? =
        some ⟨"b", 5, [("f.png", 2)]⟩ ∧
      (⟨"a", 5, [("f.png", 1)]⟩ : RunDir) ≠ ⟨"b", 5, [("f.png", 2)]⟩ ∧
      (stage_from_latest_run [⟨"a", 5, [("f.png", 1)]⟩, ⟨"b", 5, [("f.png", 2)]⟩]
          emptyDir 2 0 "hardlink").1 (frameName 0) = some 1 := by
  refine ⟨by decide, by decide, by decide, ?_⟩
  have h := stage1_frame_at [⟨"a", 5, [("f.png", 1)]⟩, ⟨"b", 5, [("f.png", 2)]⟩]
    emptyDir 2 0 "hardlink" ⟨"a", 5, [("f.png", 1)]⟩ (by decide) (by decide)
    0 (by decide)
  exact h.trans (by decide)

/-! ### Theorems: C5 frame layout and C2 staging supersession -/

/-- C5: on a successful staging run over a batch whose sorted png list
is nonempty, the hold count follows
`max(0, round(hold_last_seconds * max(fps, 0.1)))`, each batch frame i
lands at `frame_{i:03d}.png`, the hold slots `N-1+1 … N-1+hold` repeat
the final frame's bytes, and every staged frame file is one of the
`N + hold` contiguous indices starting at zero. -/
theorem c5_stage_layout (subdirs : List RunDir) (staging0 : FsDir) (fps sec : ℚ)
    (hm : String) (latest : RunDir)
    (hmax : pyMaxMtime (subdirs.filter (fun d => d.name ≠ "staging")) = some latest)
    (hne : sourcePngs latest.files ≠ []) :
    (stage_from_latest_run subdirs staging0 fps sec hm).2 = StageStatus.ok ∧
      holdCount sec fps = (max 0 (pyRound (sec * max (1 / 10 : ℚ) fps))).toNat ∧
      (∀ i, i < (sourcePngs latest.files).length →
        (stage_from_latest_run subdirs staging0 fps sec hm).1 (frameName i) =
          ((sourcePngs latest.files).map Prod.snd)[i]?) ∧
      (∀ k, 1 ≤ k → k ≤ holdCount sec fps →
        (stage_from_latest_run subdirs staging0 fps sec hm).1
            (frameName ((sourcePngs latest.files).length - 1 + k)) =
          ((sourcePngs latest.files).map
              Prod.snd)[(sourcePngs latest.files).length - 1]?) ∧
      (∀ nm, isFrameName nm = true →
        ((stage_from_latest_run subdirs staging0 fps sec hm).1 nm).isSome = true →
        ∃ i, i < (sourcePngs latest.files).length + holdCount sec fps ∧
          nm = frameName i) := by
  refine ⟨stage1_status subdirs staging0 fps sec hm latest hmax hne, rfl,
    fun i hi => stage1_frame_at subdirs staging0 fps sec hm latest hmax hne i hi,
    fun k hk1 hk2 => stage1_hold_at subdirs staging0 fps sec hm latest hmax hne k hk1 hk2,
    ?_⟩
  intro nm hfr hsome
  by_contra hnot
  push_neg at hnot
  rw [stage1_frame_none subdirs staging0 fps sec hm latest hmax hne nm hfr hnot] at hsome
  exact Bool.noConfusion hsome

/-- C5 witness: a two-frame batch at `fps = 2`, `hold_last_seconds = 3`
stages frames 0..7, with `hold_frames = 6` copies of the final frame. -/
theorem c5_witness :
    holdCount 3 2 = 6 ∧
      (stage_from_latest_run [⟨"batch", 7, [("b.png", 20), ("a.png", 10)]⟩]
          emptyDir 2 3 "hardlink").2 = StageStatus.ok ∧
      (stage_from_latest_run [⟨"batch", 7, [("b.png", 20), ("a.png", 10)]⟩]
          emptyDir 2 3 "hardlink").1 (frameName 0) = some 10 ∧
      (stage_from_latest_run [⟨"batch", 7, [("b.png", 20), ("a.png", 10)]⟩]
          emptyDir 2 3 "hardlink").1 (frameName 1) = some 20 ∧
      (stage_from_latest_run [⟨"batch", 7, [("b.png", 20), ("a.png", 10)]⟩]
          emptyDir 2 3 "hardlink").1 (frameName 7) = some 20 := by
  have h := c5_stage_layout [⟨"batch", 7, [("b.png", 20), ("a.png", 10)]⟩] emptyDir 2 3
    "hardlink" ⟨"batch", 7, [("b.png", 20), ("a.png", 10)]⟩ (by decide) (by decide)
  have h6 : (3 : ℚ) * max (1 / 10 : ℚ) 2 = 6 := by
    rw [max_eq_right (by norm_num : (1 / 10 : ℚ) ≤ 2)]
    norm_num
  have hfl : ⌊(6 : ℚ)⌋ = 6 := by norm_num
  have hr : pyRound 6 = 6 := by
    simp only [pyRound, hfl]
    norm_num
  have hh : holdCount 3 2 = 6 := by
    rw [holdCount, h6, hr]
    rfl
  refine ⟨hh, h.1, ?_, ?_, ?_⟩
  · exact (h.2.2.1 0 (by decide)).trans (by decide)
  · exact (h.2.2.1 1 (by decide)).trans (by decide)
  · have hk := h.2.2.2.1 6 (by omega) (le_of_eq hh.symm)
    rw [show (sourcePngs [("b.png", 20), ("a.png", 10)]).length - 1 + 6 = 7 from by
      decide] at hk
    exact hk.trans (by decide)

theorem stage_idem_fst (subdirs : List RunDir) (staging0 : FsDir) (fps sec : ℚ)
    (hm : String) (latest : RunDir)
    (hmax : pyMaxMtime (subdirs.filter (fun d => d.name ≠ "staging")) = some latest)
    (hne : sourcePngs latest.files ≠ []) :
    (stage_from_latest_run subdirs
        ((stage_from_latest_run subdirs staging0 fps sec hm).1) fps sec hm).1 =
      (stage_from_latest_run subdirs staging0 fps sec hm).1 := by
  funext nm
  by_cases hnm : nm = "current_manifest.json"
  · subst hnm
    rw [stage1_manifest subdirs _ fps sec hm latest hmax hne]
    cases hman : lookupFile latest.files "manifest.json" with
    | some m =>
      show some m = (stage_from_latest_run subdirs staging0 fps sec hm).1
        "current_manifest.json"
      rw [stage1_manifest subdirs staging0 fps sec hm latest hmax hne, hman]
    | none => rfl
  · by_cases hfr : isFrameName nm = true
    · by_cases hex : ∃ i,
        i < (sourcePngs latest.files).length + holdCount sec fps ∧ nm = frameName i
      · obtain ⟨i, hilt, rfl⟩ := hex
        by_cases hiN : i < (sourcePngs latest.files).length
        · rw [stage1_frame_at subdirs _ fps sec hm latest hmax hne i hiN,
            stage1_frame_at subdirs staging0 fps sec hm latest hmax hne i hiN]
        · have hpos : 0 < (sourcePngs latest.files).length := List.length_pos.mpr hne
          have hk1 : 1 ≤ i - ((sourcePngs latest.files).length - 1) := by omega
          have hk2 : i - ((sourcePngs latest.files).length - 1) ≤ holdCount sec fps := by
            omega
          rw [show i = (sourcePngs latest.files).length - 1 +
              (i - ((sourcePngs latest.files).length - 1)) from by omega,
            stage1_hold_at subdirs _ fps sec hm latest hmax hne _ hk1 hk2,
            stage1_hold_at subdirs staging0 fps sec hm latest hmax hne _ hk1 hk2]
      · push_neg at hex
        rw [stage1_frame_none subdirs _ fps sec hm latest hmax hne nm hfr hex,
          stage1_frame_none subdirs staging0 fps sec hm latest hmax hne nm hfr hex]
    · exact stage1_other subdirs _ fps sec hm latest hmax hne nm
        (Bool.eq_false_iff.mpr hfr) hnm

/-- C2 (amended): after a successful staging run every surviving
`frame_*.png` is one of the newly staged slots (stale frame files are
fully superseded), and re-running the stager on the same batch with the
same options reproduces the staging contents exactly (idempotence); but
`current_manifest.json` is only overwritten when the new batch has a
manifest — when it has none, a manifest left by a previous deployment
persists (see the counterexample). -/
theorem c2_staging_superseded_amended (subdirs : List RunDir) (staging0 : FsDir)
    (fps sec : ℚ) (hm : String) (latest : RunDir)
    (hmax : pyMaxMtime (subdirs.filter (fun d => d.name ≠ "staging")) = some latest)
    (hne : sourcePngs latest.files ≠ []) :
    (stage_from_latest_run subdirs staging0 fps sec hm).2 = StageStatus.ok ∧
      (∀ nm, isFrameName nm = true →
        (stage_from_latest_run subdirs staging0 fps sec hm).1 nm = none ∨
          ∃ i, i < (sourcePngs latest.files).length + holdCount sec fps ∧
            nm = frameName i) ∧
      (∀ m, lookupFile latest.files "manifest.json" = some m →
        (stage_from_latest_run subdirs staging0 fps sec hm).1
            "current_manifest.json" = some m) ∧
      (lookupFile latest.files "manifest.json" = none →
        (stage_from_latest_run subdirs staging0 fps sec hm).1
            "current_manifest.json" = staging0 "current_manifest.json") ∧
      stage_from_latest_run subdirs
          ((stage_from_latest_run subdirs staging0 fps sec hm).1) fps sec hm =
        ((stage_from_latest_run subdirs staging0 fps sec hm).1, StageStatus.ok) := by
  refine ⟨stage1_status subdirs staging0 fps sec hm latest hmax hne, ?_, ?_, ?_, ?_⟩
  · intro nm hfr
    by_cases hex : ∃ i,
      i < (sourcePngs latest.files).length + holdCount sec fps ∧ nm = frameName i
    · right
      exact hex
    · left
      push_neg at hex
      exact stage1_frame_none subdirs staging0 fps sec hm latest hmax hne nm hfr hex
  · intro m hman
    rw [stage1_manifest subdirs staging0 fps sec hm latest hmax hne, hman]
  · intro hman
    rw [stage1_manifest subdirs staging0 fps sec hm latest hmax hne, hman]
  · exact Prod.ext (stage_idem_fst subdirs staging0 fps sec hm latest hmax hne)
      (stage1_status subdirs _ fps sec hm latest hmax hne)

/-- C2 witness: a batch carrying a manifest: the stale staged frame
vanishes, the manifest is copied from the batch, and a second identical
run reproduces identical staging contents. -/
theorem c2_witness :
    (stage_from_latest_run [⟨"r", 1, [("a.png", 5), ("manifest.json", 77)]⟩]
        (fun nm => if nm = "frame_abc.png" then some 3 else none)
        2 0 "hardlink").1 "current_manifest.json" = some 77 ∧
      (stage_from_latest_run [⟨"r", 1, [("a.png", 5), ("manifest.json", 77)]⟩]
          (fun nm => if nm = "frame_abc.png" then some 3 else none)
          2 0 "hardlink").1 "frame_abc.png" = none ∧
      stage_from_latest_run [⟨"r", 1, [("a.png", 5), ("manifest.json", 77)]⟩]
          ((stage_from_latest_run [⟨"r", 1, [("a.png", 5), ("manifest.json", 77)]⟩]
            (fun nm => if nm = "frame_abc.png" then some 3 else none)
            2 0 "hardlink").1) 2 0 "hardlink" =
        ((stage_from_latest_run [⟨"r", 1, [("a.png", 5), ("manifest.json", 77)]⟩]
            (fun nm => if nm = "frame_abc.png" then some 3 else none)
            2 0 "hardlink").1, StageStatus.ok) := by
  have h := c2_staging_superseded_amended
    [⟨"r", 1, [("a.png", 5), ("manifest.json", 77)]⟩]
    (fun nm => if nm = "frame_abc.png" then some 3 else none) 2 0 "hardlink"
    ⟨"r", 1, [("a.png", 5), ("manifest.json", 77)]⟩ (by decide) (by decide)
  have hfl : ⌊(0 : ℚ)⌋ = 0 := by norm_num
  have hr : pyRound (0 * max (1 / 10 : ℚ) 2) = 0 := by
    rw [show (0 : ℚ) * max (1 / 10 : ℚ) 2 = 0 from by norm_num]
    simp only [pyRound, hfl]
    norm_num
  have hh : holdCount 0 2 = 0 := by
    rw [holdCount, hr]
    rfl
  refine ⟨h.2.2.1 77 (by decide), ?_, h.2.2.2.2⟩
  rcases h.2.1 "frame_abc.png" (by decide) with hnone | ⟨i, hilt, he⟩
  · exact hnone
  · rw [hh] at hilt
    have hi0 : i = 0 := by
      have hlen : (sourcePngs
          (⟨"r", 1, [("a.png", 5), ("manifest.json", 77)]⟩ : RunDir).files).length = 1 := by
        decide
      omega
    subst hi0
    exact absurd he (by decide)

/-- C2 counterexample: the staging directory holds a
`current_manifest.json` from a previous deployment; the newly selected
batch has no manifest at all, yet after a successful staging run the
stale manifest is still present — it does not originate from the new
batch. -/
theorem c2_stale_manifest_cx :
    (stage_from_latest_run [⟨"r", 1, [("a.png", 5)]⟩]
        (fun nm => if nm = "current_manifest.json" then some 99 else none)
        2 0 "hardlink").2 = StageStatus.ok ∧
      (stage_from_latest_run [⟨"r", 1, [("a.png", 5)]⟩]
          (fun nm => if nm = "current_manifest.json" then some 99 else none)
          2 0 "hardlink").1 "current_manifest.json" = some 99 ∧
      lookupFile [("a.png", 5)] "manifest.json" = none := by
  refine ⟨stage1_status [⟨"r", 1, [("a.png", 5)]⟩]
    (fun nm => if nm = "current_manifest.json" then some 99 else none) 2 0 "hardlink"
    ⟨"r", 1, [("a.png", 5)]⟩ (by decide) (by decide), ?_, by decide⟩
  have h := stage1_manifest [⟨"r", 1, [("a.png", 5)]⟩]
    (fun nm => if nm = "current_manifest.json" then some 99 else none) 2 0 "hardlink"
    ⟨"r", 1, [("a.png", 5)]⟩ (by decide) (by decide)
  rw [show lookupFile [("a.png", 5)] "manifest.json" = none from by decide] at h
  exact h.trans (by decide)

/-! ### Theorems: Deployment Orchestrator -/

theorem mainRun_aux (projects : List (String × String)) (cfg : RuntimeCfg) (env : Env) :
    ∀ (views : List View) (acc : World × List (String × DeployOutcome)),
      ((views.foldl (stepView projects cfg env) acc).2).map Prod.fst =
        acc.2.map Prod.fst ++ views.map build_view_key := by
  intro views
  induction views with
  | nil => intro acc; simp
  | cons v vs ih =>
    intro acc
    rw [List.foldl_cons, ih, List.map_cons]
    have hstep : ((stepView projects cfg env acc v).2).map Prod.fst =
        acc.2.map Prod.fst ++ [build_view_key v] := by
      rw [stepView]
      cases projLookup projects (build_view_key v) with
      | some proj => simp
      | none => simp
    rw [hstep, List.append_assoc]
    simp

/-- C1: the deployment run attempts every configured view — the report
carries exactly one outcome per view, in order and keyed by the view's
canonical key — and the run always reaches its final summary, whatever
the per-view outcomes (every failure path of `deploy_latest_frames` is
a reported outcome, never an abort), for every filesystem state,
project list, configuration and environment. -/
theorem c1_orchestrator_attempts_all (w : World) (views : List View)
    (projs_raw : List ProjRec) (cfg : RuntimeCfg) (env : Env) :
    ((mainRun w views projs_raw cfg env).2).outcomes.map Prod.fst =
        views.map build_view_key ∧
      ((mainRun w views projs_raw cfg env).2).outcomes.length = views.length ∧
      ((mainRun w views projs_raw cfg env).2).completed = true := by
  have hmap : ((mainRun w views projs_raw cfg env).2).outcomes.map Prod.fst =
      views.map build_view_key := by
    show ((views.foldl (stepView (buildProjects projs_raw) cfg env) (w, [])).2).map
        Prod.fst = views.map build_view_key
    rw [mainRun_aux (buildProjects projs_raw) cfg env views (w, [])]
    rfl
  refine ⟨hmap, ?_, rfl⟩
  have hlen := congrArg List.length hmap
  rwa [List.length_map, List.length_map] at hlen

end SatWall
